import Mathlib

/-!
Shallow embedding of the fixed-size-object memory pool in `src/Allocator.h`
(namespace `POC`): the pool engine `MemoryPool<T, growSize>` and the adapter
`Allocator<T, growSize>`, together with proofs of the specified properties.

Modelling conventions:
* A slot address is a pair `(blockId, idx)`: the identity of the heap-allocated
  `Block` the slot lives in and the slot's index within that block's `data`
  array.  Distinct `Block` objects are disjoint heap allocations and
  `chunkSize > 0` (it is at least `sizeof(Chunk) = sizeof(void*)`), so for
  in-bounds indices this pair determines the slot's byte address injectively.
* The chain of `Block` nodes hanging off `firstBlock` is modelled as the list
  of their ids, head first (head = `firstBlock`); `new Block(firstBlock)`
  prepends a fresh id.  Ids are issued as the number of blocks created so far,
  which is `blocks.length`, since blocks are never removed before teardown.
* The intrusive free list threaded through slot storage is modelled as the
  list of free slot addresses, head first (head = `firstFreeChunk`).  Under
  the documented usage precondition (only live, previously allocated slots are
  deallocated) the in-place write `pchunk->next = firstFreeChunk` never
  overwrites an existing free-list link, so the list abstraction is exact.
* `MemoryPool::allocate` dereferences `firstBlock` unguarded; the embedding
  returns `none` exactly when that dereference would be a null-pointer
  dereference (undefined behavior).  All other paths return `some`.
* `growSize` is a template parameter; `MemoryPool<T, 0>` is ill-formed C++
  (its `Block::data` would be a zero-length array), so theorems about pool
  behaviour may assume `0 < growSize`.
-/

namespace POC

/-- A slot address: which `Block` the slot is in, and its index there. -/
structure Addr where
  blockId : Nat
  idx : Nat
deriving DecidableEq

/-- The mutable state of a `MemoryPool<T, growSize>` instance:
`firstFreeChunk` (free list, head first), the chain of blocks reachable from
`firstBlock` (as block ids, head = `firstBlock`), and the bump cursor
`usedChunks`. -/
structure PoolState where
  firstFreeChunk : List Addr
  blocks : List Nat
  usedChunks : Nat
deriving DecidableEq

/-- A default-constructed pool: `firstFreeChunk = nullptr`,
`firstBlock = nullptr`, `usedChunks = growSize` (member initializers in the
source). -/
def initPool (growSize : Nat) : PoolState :=
  { firstFreeChunk := [], blocks := [], usedChunks := growSize }

namespace MemoryPool

/-- `MemoryPool::allocate`.  If the free list is non-empty, pop its head and
return it.  Otherwise, if `usedChunks >= growSize`, push a fresh block
(`new Block(firstBlock)`) and reset `usedChunks` to 0; then return
`firstBlock->getChunk(usedChunks++)`.  `none` models the null dereference of
`firstBlock` (undefined behavior), which the source would hit only if the
bump path ran with no block and `usedChunks < growSize`. -/
def allocate (growSize : Nat) (s : PoolState) : Option (Addr × PoolState) :=
  match s.firstFreeChunk with
  | p :: rest => some (p, { s with firstFreeChunk := rest })
  | [] =>
    let s1 := if growSize ≤ s.usedChunks
      then { s with blocks := s.blocks.length :: s.blocks, usedChunks := 0 }
      else s
    match s1.blocks with
    | [] => none
    | f :: _ => some (⟨f, s1.usedChunks⟩, { s1 with usedChunks := s1.usedChunks + 1 })

/-- `MemoryPool::deallocate`: push `p` onto the free-list head
(`pchunk->next = firstFreeChunk; firstFreeChunk = pchunk`). -/
def deallocate (s : PoolState) (p : Addr) : PoolState :=
  { s with firstFreeChunk := p :: s.firstFreeChunk }

/-- The `while (firstBlock)` loop of `~MemoryPool`: walk the block chain once,
deleting each block, and collect the deleted block ids in deletion order. -/
def teardownLoop : List Nat → List Nat
  | [] => []
  | b :: rest => b :: teardownLoop rest

/-- `~MemoryPool`: the list of blocks released (in order) and the list of
element-destructor invocations it performs.  `delete firstBlock` runs
`Block::~Block`, which is trivial (`data` is a raw `uint8_t` array and `next`
a plain pointer), so no `T::~T` is ever invoked: the second component is
empty by the semantics of the source. -/
def teardown (s : PoolState) : List Nat × List Addr :=
  (teardownLoop s.blocks, [])

end MemoryPool

/-- `Block::chunkSize = sizeof(T) > sizeof(Chunk) ? sizeof(T) : sizeof(Chunk)`,
as a function of the two sizes. -/
def chunkSize (sizeT sizeChunk : Nat) : Nat :=
  if sizeChunk < sizeT then sizeT else sizeChunk

/-- `Block::getChunk(idx)` returns `&data[chunkSize * idx]`: the byte offset of
slot `idx` inside a block, the same `chunkSize` for every block of the pool. -/
def getChunkOffset (sizeT sizeChunk idx : Nat) : Nat :=
  chunkSize sizeT sizeChunk * idx

/-- Outcome of `Allocator::allocate(n, hint)`: a returned pointer, or a thrown
`std::bad_alloc`. -/
inductive AllocResult
  | ok (a : Addr)
  | badAlloc
deriving DecidableEq

namespace Allocator

/-- `Allocator::allocate(n, hint)`: `if (n != 1 || hint) throw std::bad_alloc();`
then delegate to `MemoryPool::allocate`.  `hintNonNull` is whether the `hint`
pointer is non-null.  The state component of the result is the pool state
after the call (unchanged when the exception is thrown before delegation);
`none` again models undefined behavior inside the engine. -/
def allocate (growSize n : Nat) (hintNonNull : Bool) (s : PoolState) :
    Option (AllocResult × PoolState) :=
  if n ≠ 1 ∨ hintNonNull then some (.badAlloc, s)
  else (MemoryPool.allocate growSize s).map fun r => (.ok r.1, r.2)

/-- `Allocator::deallocate(p, n)`: delegates to `MemoryPool::deallocate(p)`,
ignoring `n`. -/
def deallocate (s : PoolState) (p : Addr) (_n : Nat) : PoolState :=
  MemoryPool.deallocate s p

/-- `Allocator::construct(p, val)`: placement-new a copy of `val` at `p`.
The pool state is passed through untouched (the source touches no pool
member); the memory map gains `val` at `p`. -/
def construct {V : Type} (p : Addr) (val : V) (s : PoolState)
    (mem : Addr → Option V) : PoolState × (Addr → Option V) :=
  (s, fun a => if a = p then some val else mem a)

/-- `Allocator::destroy(p)`: `p->~T()`.  The pool state is passed through
untouched; the element at `p` ends its lifetime; the third component is the
list of element-destructor invocations this call performs (exactly one,
at `p`). -/
def destroy {V : Type} (p : Addr) (s : PoolState) (mem : Addr → Option V) :
    PoolState × (Addr → Option V) × List Addr :=
  (s, fun a => if a = p then none else mem a, [p])

end Allocator

/-- `k` consecutive `MemoryPool::allocate` calls with no intervening
deallocation, threading the pool state and discarding the returned
addresses; `none` if any call hits undefined behavior. -/
def allocN (growSize : Nat) : Nat → PoolState → Option PoolState
  | 0, s => some s
  | k + 1, s => (allocN growSize k s).bind fun s' =>
      (MemoryPool.allocate growSize s').map Prod.snd

/-- Pool states paired with the list of currently live (allocated, not yet
deallocated) addresses, reachable from a fresh pool by `allocate` /
`deallocate` calls in which every deallocated slot is live at the time of its
deallocation (the documented usage precondition). -/
inductive Reaches (growSize : Nat) : PoolState → List Addr → Prop
  | init : Reaches growSize (initPool growSize) []
  | alloc {s live a s'} : Reaches growSize s live →
      MemoryPool.allocate growSize s = some (a, s') →
      Reaches growSize s' (a :: live)
  | dealloc {s live a} : Reaches growSize s live → a ∈ live →
      Reaches growSize (MemoryPool.deallocate s a) (live.erase a)

/-- The slot `a` has been handed out by the bump allocator at some point in
the pool's history: it lies in a non-front (hence fully carved) block with an
in-bounds index, or in the front block below the cursor. -/
def everAllocated (growSize : Nat) (s : PoolState) (a : Addr) : Prop :=
  match s.blocks with
  | [] => False
  | f :: rest => (a.blockId ∈ rest ∧ a.idx < growSize) ∨
      (a.blockId = f ∧ a.idx < s.usedChunks)

/-- The pool invariant maintained by every reachable state. -/
structure Inv (growSize : Nat) (s : PoolState) (live : List Addr) : Prop where
  blocks_eq : s.blocks = (List.range s.blocks.length).reverse
  used_le : s.usedChunks ≤ growSize
  empty_full : s.blocks = [] → s.usedChunks = growSize
  nodup : (live ++ s.firstFreeChunk).Nodup
  mem_ok : ∀ a ∈ live ++ s.firstFreeChunk, everAllocated growSize s a

theorem allocate_pop {growSize : Nat} {s : PoolState} {p : Addr} {rest : List Addr}
    (h : s.firstFreeChunk = p :: rest) :
    MemoryPool.allocate growSize s = some (p, { s with firstFreeChunk := rest }) := by
  unfold MemoryPool.allocate
  rw [h]

theorem allocate_grow {growSize : Nat} {s : PoolState}
    (hf : s.firstFreeChunk = []) (hu : growSize ≤ s.usedChunks) :
    MemoryPool.allocate growSize s = some (⟨s.blocks.length, 0⟩,
      { s with blocks := s.blocks.length :: s.blocks, usedChunks := 1 }) := by
  unfold MemoryPool.allocate
  rw [hf, if_pos hu]

theorem allocate_bump {growSize : Nat} {s : PoolState} {f : Nat} {bs : List Nat}
    (hf : s.firstFreeChunk = []) (hu : s.usedChunks < growSize) (hb : s.blocks = f :: bs) :
    MemoryPool.allocate growSize s = some (⟨f, s.usedChunks⟩,
      { s with usedChunks := s.usedChunks + 1 }) := by
  unfold MemoryPool.allocate
  rw [hf, if_neg (Nat.not_le.mpr hu)]
  simp only [hb, hf]

theorem everAllocated_cons {growSize : Nat} {fl : List Addr} {f : Nat} {bs : List Nat}
    {u : Nat} {a : Addr} :
    everAllocated growSize ⟨fl, f :: bs, u⟩ a ↔
      (a.blockId ∈ bs ∧ a.idx < growSize) ∨ (a.blockId = f ∧ a.idx < u) :=
  Iff.rfl

theorem everAllocated_nil_iff {growSize : Nat} {fl : List Addr} {u : Nat} {a : Addr} :
    everAllocated growSize ⟨fl, [], u⟩ a ↔ False :=
  Iff.rfl

theorem everAllocated_blockId_mem {growSize : Nat} {s : PoolState} {a : Addr}
    (h : everAllocated growSize s a) : a.blockId ∈ s.blocks := by
  obtain ⟨fl, blks, used⟩ := s
  cases blks with
  | nil => exact (everAllocated_nil_iff.mp h).elim
  | cons f bs =>
    rcases everAllocated_cons.mp h with ⟨h1, _⟩ | ⟨h1, _⟩
    · exact List.mem_cons_of_mem _ h1
    · rw [h1]; exact List.mem_cons_self _ _

theorem everAllocated_idx_lt {growSize : Nat} {s : PoolState} {live : List Addr} {a : Addr}
    (hI : Inv growSize s live) (h : everAllocated growSize s a) : a.idx < growSize := by
  obtain ⟨fl, blks, used⟩ := s
  cases blks with
  | nil => exact (everAllocated_nil_iff.mp h).elim
  | cons f bs =>
    rcases everAllocated_cons.mp h with ⟨_, h2⟩ | ⟨_, h2⟩
    · exact h2
    · exact lt_of_lt_of_le h2 hI.used_le

theorem blocks_mem_lt {growSize : Nat} {s : PoolState} {live : List Addr}
    (h : Inv growSize s live) : ∀ b ∈ s.blocks, b < s.blocks.length := by
  intro b hb
  rw [h.blocks_eq, List.mem_reverse, List.mem_range] at hb
  rw [h.blocks_eq, List.length_reverse, List.length_range] at hb ⊢
  exact hb

theorem blocks_nodup {growSize : Nat} {s : PoolState} {live : List Addr}
    (h : Inv growSize s live) : s.blocks.Nodup := by
  rw [h.blocks_eq, List.nodup_reverse]
  exact List.nodup_range _

theorem inv_init (growSize : Nat) : Inv growSize (initPool growSize) [] := by
  refine ⟨rfl, le_refl _, fun _ => rfl, List.nodup_nil, ?_⟩
  intro a ha
  simp [initPool] at ha

theorem inv_alloc {growSize : Nat} {s : PoolState} {live : List Addr} {a : Addr}
    {s' : PoolState} (hg : 0 < growSize) (hI : Inv growSize s live)
    (h : MemoryPool.allocate growSize s = some (a, s')) :
    Inv growSize s' (a :: live) := by
  obtain ⟨fl, blks, used⟩ := s
  cases fl with
  | cons p rest =>
    rw [allocate_pop rfl] at h
    simp only [Option.some.injEq, Prod.mk.injEq] at h
    obtain ⟨rfl, rfl⟩ := h
    refine ⟨hI.blocks_eq, hI.used_le, hI.empty_full, ?_, ?_⟩
    · exact List.perm_middle.nodup hI.nodup
    · intro x hx
      have hx' : x ∈ live ++ p :: rest := by
        simp only [List.cons_append, List.mem_cons, List.mem_append] at hx ⊢
        tauto
      exact hI.mem_ok x hx'
  | nil =>
    have hbe : blks = (List.range blks.length).reverse := hI.blocks_eq
    have hul : used ≤ growSize := hI.used_le
    have hnd : live.Nodup := by
      have h0 : (live ++ ([] : List Addr)).Nodup := hI.nodup
      simpa using h0
    by_cases hu : growSize ≤ used
    · -- slab-creation path
      rw [allocate_grow rfl hu] at h
      simp only [Option.some.injEq, Prod.mk.injEq] at h
      obtain ⟨rfl, rfl⟩ := h
      refine ⟨?_, hg, ?_, ?_, ?_⟩
      · have hrs : (List.range (blks.length + 1)).reverse =
            blks.length :: (List.range blks.length).reverse := by
          simp [List.range_succ]
        show blks.length :: blks = (List.range (blks.length :: blks).length).reverse
        rw [List.length_cons, hrs, ← hbe]
      · intro hx
        exact absurd hx (List.cons_ne_nil _ _)
      · show ((Addr.mk blks.length 0 :: live) ++ ([] : List Addr)).Nodup
        rw [List.append_nil]
        refine List.nodup_cons.mpr ⟨?_, hnd⟩
        intro hmem
        have hev : everAllocated growSize ⟨[], blks, used⟩ ⟨blks.length, 0⟩ :=
          hI.mem_ok _ (by simpa using hmem)
        have hbm : blks.length ∈ blks := everAllocated_blockId_mem hev
        exact absurd (blocks_mem_lt hI _ hbm) (lt_irrefl _)
      · intro x hx
        have hx' : x = Addr.mk blks.length 0 ∨ x ∈ live := by simpa using hx
        rcases hx' with rfl | hxl
        · exact everAllocated_cons.mpr (Or.inr ⟨rfl, Nat.one_pos⟩)
        · have hev : everAllocated growSize ⟨[], blks, used⟩ x :=
            hI.mem_ok _ (by simpa using hxl)
          exact everAllocated_cons.mpr
            (Or.inl ⟨everAllocated_blockId_mem hev, everAllocated_idx_lt hI hev⟩)
    · -- bump path, no slab creation
      have hlt : used < growSize := Nat.not_le.mp hu
      cases hb : blks with
      | nil =>
        subst hb
        exact absurd (hI.empty_full rfl) (Nat.ne_of_lt hlt)
      | cons f bs =>
        subst hb
        rw [allocate_bump rfl hlt rfl] at h
        simp only [Option.some.injEq, Prod.mk.injEq] at h
        obtain ⟨rfl, rfl⟩ := h
        refine ⟨hI.blocks_eq, hlt, ?_, ?_, ?_⟩
        · intro hx
          exact absurd hx (List.cons_ne_nil _ _)
        · show ((Addr.mk f used :: live) ++ ([] : List Addr)).Nodup
          rw [List.append_nil]
          refine List.nodup_cons.mpr ⟨?_, hnd⟩
          intro hmem
          have hev : everAllocated growSize ⟨[], f :: bs, used⟩ ⟨f, used⟩ :=
            hI.mem_ok _ (by simpa using hmem)
          rcases everAllocated_cons.mp hev with ⟨h1, _⟩ | ⟨_, h2⟩
          · exact absurd h1 (List.nodup_cons.mp (blocks_nodup hI)).1
          · exact absurd h2 (lt_irrefl _)
        · intro x hx
          have hx' : x = Addr.mk f used ∨ x ∈ live := by simpa using hx
          rcases hx' with rfl | hxl
          · exact everAllocated_cons.mpr (Or.inr ⟨rfl, Nat.lt_succ_self _⟩)
          · have hev : everAllocated growSize ⟨[], f :: bs, used⟩ x :=
              hI.mem_ok _ (by simpa using hxl)
            rcases everAllocated_cons.mp hev with ⟨h1, h2⟩ | ⟨h1, h2⟩
            · exact everAllocated_cons.mpr (Or.inl ⟨h1, h2⟩)
            · exact everAllocated_cons.mpr (Or.inr ⟨h1, Nat.lt_succ_of_lt h2⟩)

theorem inv_dealloc {growSize : Nat} {s : PoolState} {live : List Addr} {a : Addr}
    (hI : Inv growSize s live) (ha : a ∈ live) :
    Inv growSize (MemoryPool.deallocate s a) (live.erase a) := by
  obtain ⟨fl, blks, used⟩ := s
  refine ⟨hI.blocks_eq, hI.used_le, hI.empty_full, ?_, ?_⟩
  · have hperm : (live ++ fl).Perm (live.erase a ++ a :: fl) := by
      have h1 : (live ++ fl).Perm ((a :: live.erase a) ++ fl) :=
        (List.perm_cons_erase ha).append_right fl
      have h2 : (a :: (live.erase a ++ fl)).Perm (live.erase a ++ a :: fl) :=
        List.perm_middle.symm
      exact h1.trans h2
    exact hperm.nodup hI.nodup
  · intro x hx
    have hx' : x ∈ live ++ fl := by
      rcases List.mem_append.mp hx with h1 | h2
      · exact List.mem_append.mpr (Or.inl (List.mem_of_mem_erase h1))
      · rcases List.mem_cons.mp h2 with rfl | h3
        · exact List.mem_append.mpr (Or.inl ha)
        · exact List.mem_append.mpr (Or.inr h3)
    exact hI.mem_ok x hx'

theorem reaches_inv {growSize : Nat} {s : PoolState} {live : List Addr}
    (hg : 0 < growSize) (h : Reaches growSize s live) : Inv growSize s live := by
  induction h with
  | init => exact inv_init growSize
  | alloc _ hal ih => exact inv_alloc hg ih hal
  | dealloc _ hm ih => exact inv_dealloc ih hm

theorem allocN_first_slab {growSize : Nat} :
    ∀ k, 1 ≤ k → k ≤ growSize →
      allocN growSize k (initPool growSize) =
        some { firstFreeChunk := [], blocks := [0], usedChunks := k } := by
  intro k
  induction k with
  | zero => intro h1 _; exact absurd h1 (by omega)
  | succ k ih =>
    intro _ hk
    rcases Nat.eq_zero_or_pos k with rfl | hkpos
    · have h1 : MemoryPool.allocate growSize (initPool growSize) =
          some (⟨0, 0⟩, { firstFreeChunk := [], blocks := [0], usedChunks := 1 }) := by
        have h2 := @allocate_grow growSize (initPool growSize) rfl (le_refl growSize)
        simpa [initPool] using h2
      simp [allocN, h1]
    · have hkg : (k : Nat) < growSize := hk
      have ihk := ih hkpos (le_of_lt hkg)
      have hb : MemoryPool.allocate growSize ⟨[], [0], k⟩ =
          some (⟨0, k⟩, { firstFreeChunk := [], blocks := [0], usedChunks := k + 1 }) := by
        have h2 := @allocate_bump growSize ⟨[], [0], k⟩ 0 [] rfl hkg rfl
        simpa using h2
      simp [allocN, ihk, hb]

/-- Claim C1: `MemoryPool::allocate` follows exactly the documented algorithm:
with a non-empty free list it pops the head and returns that slot, leaving
the block chain and cursor untouched; with an empty free list, if no block
exists or the cursor has reached `growSize`, it links a fresh block at the
front and resets the cursor to 0, then returns the slot at the cursor of the
front block and advances the cursor by one. -/
theorem allocate_follows_spec_algorithm (growSize : Nat) (s : PoolState) (live : List Addr)
    (hg : 0 < growSize) (hr : Reaches growSize s live) :
    (∀ p rest, s.firstFreeChunk = p :: rest →
      MemoryPool.allocate growSize s = some (p, { s with firstFreeChunk := rest })) ∧
    (s.firstFreeChunk = [] → (s.blocks = [] ∨ growSize ≤ s.usedChunks) →
      MemoryPool.allocate growSize s = some (⟨s.blocks.length, 0⟩,
        { s with blocks := s.blocks.length :: s.blocks, usedChunks := 1 })) ∧
    (∀ f bs, s.firstFreeChunk = [] → s.blocks = f :: bs → s.usedChunks < growSize →
      MemoryPool.allocate growSize s = some (⟨f, s.usedChunks⟩,
        { s with usedChunks := s.usedChunks + 1 })) := by
  refine ⟨fun p rest h => allocate_pop h, ?_, fun f bs hf hb hu => allocate_bump hf hu hb⟩
  intro hf hcase
  rcases hcase with hb | hu
  · have he := (reaches_inv hg hr).empty_full hb
    exact allocate_grow hf (le_of_eq he.symm)
  · exact allocate_grow hf hu

theorem allocate_follows_spec_algorithm_witness :
    MemoryPool.allocate 2 ⟨[], [0], 1⟩ = some (⟨0, 1⟩, ⟨[], [0], 2⟩) := by
  have hr : Reaches 2 ⟨[], [0], 1⟩ [⟨0, 0⟩] :=
    Reaches.alloc Reaches.init (by decide)
  have h := (allocate_follows_spec_algorithm 2 ⟨[], [0], 1⟩ [⟨0, 0⟩] (by decide) hr).2.2
    0 [] rfl rfl (by decide)
  simpa using h

/-- Claim C2: under the documented usage precondition (only live, previously
allocated slots are deallocated), the currently-live addresses are pairwise
distinct in every reachable pool state; their indices are in bounds, so
distinct model addresses denote distinct byte addresses. -/
theorem live_addresses_pairwise_distinct (growSize : Nat) (s : PoolState) (live : List Addr)
    (hg : 0 < growSize) (hr : Reaches growSize s live) :
    live.Nodup ∧ ∀ a ∈ live, a.idx < growSize := by
  have hI := reaches_inv hg hr
  constructor
  · exact (List.nodup_append.mp hI.nodup).1
  · intro a ha
    exact everAllocated_idx_lt hI (hI.mem_ok a (List.mem_append.mpr (Or.inl ha)))

theorem live_addresses_pairwise_distinct_witness :
    List.Nodup [(⟨0, 1⟩ : Addr), ⟨0, 0⟩] := by
  have hr1 : Reaches 2 ⟨[], [0], 1⟩ [⟨0, 0⟩] := Reaches.alloc Reaches.init (by decide)
  have hr2 : Reaches 2 ⟨[], [0], 2⟩ [⟨0, 1⟩, ⟨0, 0⟩] := Reaches.alloc hr1 (by decide)
  exact (live_addresses_pairwise_distinct 2 ⟨[], [0], 2⟩ [⟨0, 1⟩, ⟨0, 0⟩]
    (by decide) hr2).1

/-- Claim C3: `Allocator::allocate(n, hint)` throws `std::bad_alloc` whenever
`n ≠ 1` or the hint is non-null, leaving the pool state exactly as it was;
with `n = 1` and a null hint it returns the engine's `allocate()` result. -/
theorem adapter_allocate_contract (growSize n : Nat) (hintNonNull : Bool) (s : PoolState) :
    (n ≠ 1 ∨ hintNonNull = true →
      Allocator.allocate growSize n hintNonNull s = some (.badAlloc, s)) ∧
    (n = 1 → hintNonNull = false →
      Allocator.allocate growSize n hintNonNull s =
        (MemoryPool.allocate growSize s).map fun r => (.ok r.1, r.2)) := by
  constructor
  · intro h
    rcases h with h | h
    · simp [Allocator.allocate, h]
    · simp [Allocator.allocate, h]
  · intro h1 h2
    subst h1; subst h2
    simp [Allocator.allocate]

theorem adapter_allocate_contract_witness :
    Allocator.allocate 2 2 false (initPool 2) = some (.badAlloc, initPool 2) ∧
    Allocator.allocate 2 1 false (initPool 2) =
      (MemoryPool.allocate 2 (initPool 2)).map fun r => (.ok r.1, r.2) :=
  ⟨(adapter_allocate_contract 2 2 false (initPool 2)).1 (Or.inl (by decide)),
   (adapter_allocate_contract 2 1 false (initPool 2)).2 rfl rfl⟩

/-- Claim C4: if the free list holds exactly the one slot `p` just passed to
`deallocate`, the immediately following `allocate()` returns exactly `p`
(LIFO free-list reuse) and restores the pool state from before the
deallocation. -/
theorem lifo_reuse (growSize : Nat) (s : PoolState) (p : Addr)
    (h : s.firstFreeChunk = []) :
    (MemoryPool.deallocate s p).firstFreeChunk = [p] ∧
    MemoryPool.allocate growSize (MemoryPool.deallocate s p) = some (p, s) := by
  constructor
  · show p :: s.firstFreeChunk = [p]
    rw [h]
  · rw [@allocate_pop growSize (MemoryPool.deallocate s p) p s.firstFreeChunk rfl]
    rfl

theorem lifo_reuse_witness :
    MemoryPool.allocate 2 (MemoryPool.deallocate ⟨[], [0], 2⟩ ⟨0, 1⟩) =
      some (⟨0, 1⟩, ⟨[], [0], 2⟩) :=
  (lifo_reuse 2 ⟨[], [0], 2⟩ ⟨0, 1⟩ rfl).2

/-- Claim C5: from a fresh pool, `growSize + 1` allocations with no
deallocation create exactly two blocks: after each of the first `growSize`
allocations exactly one block exists, and after allocation `growSize + 1`
exactly two exist. -/
theorem two_slabs_after_growSize_succ_allocs (growSize : Nat) (hg : 0 < growSize) :
    (∀ k, 1 ≤ k → k ≤ growSize →
      ∃ s, allocN growSize k (initPool growSize) = some s ∧ s.blocks.length = 1) ∧
    (∃ s, allocN growSize (growSize + 1) (initPool growSize) = some s ∧
      s.blocks.length = 2) := by
  constructor
  · intro k h1 h2
    exact ⟨_, allocN_first_slab k h1 h2, rfl⟩
  · have hfull := allocN_first_slab growSize hg (le_refl _)
    have hg1 : MemoryPool.allocate growSize ⟨[], [0], growSize⟩ =
        some (⟨1, 0⟩, ⟨[], [1, 0], 1⟩) := by
      have h2 := @allocate_grow growSize ⟨[], [0], growSize⟩ rfl (le_refl _)
      simpa using h2
    refine ⟨⟨[], [1, 0], 1⟩, ?_, rfl⟩
    simp [allocN, hfull, hg1]

theorem two_slabs_after_growSize_succ_allocs_witness :
    ∃ s, allocN 2 3 (initPool 2) = some s ∧ s.blocks.length = 2 :=
  (two_slabs_after_growSize_succ_allocs 2 (by decide)).2

/-- Claim C6: `Block::chunkSize` is `max(sizeof(T), sizeof(Chunk))`, i.e.
`sizeof(T)` when the element is at least link-sized and the link size
otherwise, and every slot offset computed by `getChunk` uses this one slot
size. -/
theorem chunkSize_eq_max (sizeT sizeChunk : Nat) :
    chunkSize sizeT sizeChunk = max sizeT sizeChunk ∧
    (sizeChunk ≤ sizeT → chunkSize sizeT sizeChunk = sizeT) ∧
    (sizeT < sizeChunk → chunkSize sizeT sizeChunk = sizeChunk) ∧
    ∀ idx, getChunkOffset sizeT sizeChunk idx = max sizeT sizeChunk * idx := by
  have hm : chunkSize sizeT sizeChunk = max sizeT sizeChunk := by
    unfold chunkSize
    split <;> omega
  refine ⟨hm, fun h => ?_, fun h => ?_, fun idx => ?_⟩
  · rw [hm, Nat.max_eq_left h]
  · rw [hm, Nat.max_eq_right (le_of_lt h)]
  · unfold getChunkOffset
    rw [hm]

theorem chunkSize_eq_max_witness :
    chunkSize 16 8 = 16 ∧ chunkSize 4 8 = 8 :=
  ⟨(chunkSize_eq_max 16 8).2.1 (by decide), (chunkSize_eq_max 4 8).2.2.1 (by decide)⟩

/-- Claim C7: `MemoryPool::deallocate(p)` only pushes `p` onto the free-list
head: afterwards the free-list head is `p` and its link is the previous
head, while the block chain (hence the slab count) and the cursor are
unchanged; no slab storage is released. -/
theorem deallocate_frame (s : PoolState) (p : Addr) :
    (MemoryPool.deallocate s p).firstFreeChunk = p :: s.firstFreeChunk ∧
    (MemoryPool.deallocate s p).blocks = s.blocks ∧
    (MemoryPool.deallocate s p).usedChunks = s.usedChunks :=
  ⟨rfl, rfl, rfl⟩

theorem teardownLoop_eq (l : List Nat) : MemoryPool.teardownLoop l = l := by
  induction l with
  | nil => rfl
  | cons b rest ih => simp [MemoryPool.teardownLoop, ih]

/-- Claim C8: pool teardown releases every owned block, each exactly once,
in one pass over the block chain, and performs no element-type destructor
call; an element destructor runs exactly once per explicit
`Allocator::destroy(p)` call. -/
theorem teardown_releases_each_slab_once (growSize : Nat) (s : PoolState) (live : List Addr)
    (hg : 0 < growSize) (hr : Reaches growSize s live) :
    (MemoryPool.teardown s).1 = s.blocks ∧
    (MemoryPool.teardown s).1.Nodup ∧
    (MemoryPool.teardown s).2 = [] ∧
    ∀ (V : Type) (p : Addr) (mem : Addr → Option V),
      (Allocator.destroy p s mem).2.2 = [p] := by
  refine ⟨teardownLoop_eq s.blocks, ?_, rfl, fun V p mem => rfl⟩
  have hn := blocks_nodup (reaches_inv hg hr)
  rw [show (MemoryPool.teardown s).1 = MemoryPool.teardownLoop s.blocks from rfl,
    teardownLoop_eq]
  exact hn

theorem teardown_releases_each_slab_once_witness :
    (MemoryPool.teardown ⟨[], [0], 1⟩).1 = [0] ∧ (MemoryPool.teardown ⟨[], [0], 1⟩).2 = [] :=
  ⟨(teardown_releases_each_slab_once 2 ⟨[], [0], 1⟩ [⟨0, 0⟩] (by decide)
      (Reaches.alloc Reaches.init (by decide))).1,
   (teardown_releases_each_slab_once 2 ⟨[], [0], 1⟩ [⟨0, 0⟩] (by decide)
      (Reaches.alloc Reaches.init (by decide))).2.2.1⟩

/-- Claim C9: in every reachable pool state the cursor lies in
`[0, growSize]`, a pool with no block has cursor `growSize`, and `allocate`
never dereferences a null block pointer: it always succeeds, and on the bump
path it indexes the (existing) front block at a position `< growSize`. -/
theorem cursor_bounds (growSize : Nat) (s : PoolState) (live : List Addr)
    (hg : 0 < growSize) (hr : Reaches growSize s live) :
    s.usedChunks ≤ growSize ∧
    (s.blocks = [] → s.usedChunks = growSize) ∧
    ∃ a s', MemoryPool.allocate growSize s = some (a, s') ∧
      (s.firstFreeChunk = [] → a.idx < growSize ∧ s'.blocks ≠ []) := by
  have hI := reaches_inv hg hr
  refine ⟨hI.used_le, hI.empty_full, ?_⟩
  cases hf : s.firstFreeChunk with
  | cons p rest =>
    refine ⟨p, _, allocate_pop hf, fun h => ?_⟩
    exact (List.cons_ne_nil _ _ h).elim
  | nil =>
    by_cases hu : growSize ≤ s.usedChunks
    · exact ⟨_, _, allocate_grow hf hu, fun _ => ⟨hg, List.cons_ne_nil _ _⟩⟩
    · have hlt : s.usedChunks < growSize := Nat.not_le.mp hu
      cases hb : s.blocks with
      | nil => exact absurd (hI.empty_full hb) (Nat.ne_of_lt hlt)
      | cons f bs =>
        exact ⟨⟨f, s.usedChunks⟩, _, allocate_bump hf hlt hb, fun _ => ⟨hlt, by simp [hb]⟩⟩

theorem cursor_bounds_witness :
    (initPool 2).usedChunks ≤ 2 ∧ ((initPool 2).blocks = [] → (initPool 2).usedChunks = 2) :=
  ⟨(cursor_bounds 2 (initPool 2) [] (by decide) Reaches.init).1,
   (cursor_bounds 2 (initPool 2) [] (by decide) Reaches.init).2.1⟩

/-- Claim C10: `Allocator::construct(p, val)` and `Allocator::destroy(p)`
leave the pool state entirely unchanged; `construct` only places a copy of
`val` at `p`, `destroy` only runs the element destructor at `p` exactly once,
and neither touches any other address or releases the slot. -/
theorem construct_destroy_frame (V : Type) (p : Addr) (val : V) (s : PoolState)
    (mem : Addr → Option V) :
    (Allocator.construct p val s mem).1 = s ∧
    (Allocator.construct p val s mem).2 p = some val ∧
    (∀ a, a ≠ p → (Allocator.construct p val s mem).2 a = mem a) ∧
    (Allocator.destroy p s mem).1 = s ∧
    (Allocator.destroy p s mem).2.2 = [p] ∧
    (∀ a, a ≠ p → (Allocator.destroy p s mem).2.1 a = mem a) := by
  refine ⟨rfl, ?_, ?_, rfl, rfl, ?_⟩
  · simp [Allocator.construct]
  · intro a ha
    simp [Allocator.construct, ha]
  · intro a ha
    simp [Allocator.destroy, ha]

theorem construct_destroy_frame_witness :
    (Allocator.construct ⟨0, 0⟩ (7 : Nat) (initPool 2) fun _ => none).2 ⟨0, 1⟩ = none ∧
    (Allocator.destroy ⟨0, 0⟩ (initPool 2)
      fun _ => (none : Option Nat)).2.2 = [⟨0, 0⟩] :=
  ⟨(construct_destroy_frame Nat ⟨0, 0⟩ 7 (initPool 2) (fun _ => none)).2.2.1 ⟨0, 1⟩
      (by decide),
   (construct_destroy_frame Nat ⟨0, 0⟩ 7 (initPool 2) (fun _ => none)).2.2.2.2.1⟩

end POC
